import Mathlib

/-!
Verification development for the pycoustics client code.

The TypeScript/JavaScript capture path is shallowly embedded over `ℚ`:
every numeric operation the embedded code performs on a captured sample
(`Math.max`, `Math.min`, multiplication by the powers-of-two-sized
constants `0x8000` and `0x7FFF`, truncation and 16-bit wrapping on
storing into an `Int16Array`) is exact on the IEEE doubles that occur
there, because the inputs are single-precision floats (24-bit
significands) and the products need at most 39 significand bits, so the
rational model computes exactly the values the JavaScript code computes.
-/

namespace Pycoustics

/-- Truncation of a rational toward zero, the rounding JavaScript applies
when a number is stored into an `Int16Array` (`ToInt16` first truncates).
Written with `Rat.floor` so that it evaluates by kernel reduction. -/
def truncRat (q : ℚ) : ℤ :=
  if q < 0 then -((-q).floor) else q.floor

/-- The wrap-around conversion of an integer to a signed 16-bit value that
`ToInt16` performs after truncation (ECMA-262: modulo 2^16, then re-centre
into [-2^15, 2^15)). -/
def toInt16 (t : ℤ) : ℤ :=
  if 32768 ≤ t % 65536 then t % 65536 - 65536 else t % 65536

/-- From `audio-processor.js` (`PCMProcessor.process`) and
`useAudioStream.ts` (`onaudioprocess`): `Math.max(-1, Math.min(1, s))`. -/
def clampSample (s : ℚ) : ℚ :=
  max (-1) (min 1 s)

/-- From the same two loops: `s < 0 ? s * 0x8000 : s * 0x7FFF`
applied to the already-clamped sample. -/
def scaleSample (c : ℚ) : ℚ :=
  if c < 0 then c * 32768 else c * 32767

/-- One emitted 16-bit sample: the clamped, scaled float as stored into an
`Int16Array` slot (truncation toward zero, then 16-bit wrap). -/
def encodeSample (s : ℚ) : ℤ :=
  toInt16 (truncRat (scaleSample (clampSample s)))

/-- The mapping claimed for the encoder: clamp to [-1,1], multiply the
clamped value by 32768 when negative and by 32767 otherwise, truncate
toward zero.  Stated with the opposite nesting of the clamp and with no
16-bit wrap, to be compared with `encodeSample`. -/
def claimEncodeSample (s : ℚ) : ℤ :=
  if min 1 (max (-1) s) < 0 then truncRat (min 1 (max (-1) s) * 32768)
  else truncRat (min 1 (max (-1) s) * 32767)

theorem floor_eq_ratFloor (q : ℚ) : ⌊q⌋ = q.floor :=
  (Rat.floor_def).trans (Rat.floor_def' q).symm

theorem truncRat_eq (q : ℚ) : truncRat q = if q < 0 then ⌈q⌉ else ⌊q⌋ := by
  unfold truncRat
  by_cases h : q < 0
  · rw [if_pos h, if_pos h, ← floor_eq_ratFloor, Int.floor_neg, neg_neg]
  · rw [if_neg h, if_neg h, ← floor_eq_ratFloor]

theorem truncRat_intCast (x : ℤ) : truncRat (x : ℚ) = x := by
  rw [truncRat_eq]
  split
  · exact Int.ceil_intCast x
  · exact Int.floor_intCast x

theorem truncRat_nonneg {q : ℚ} (h : 0 ≤ q) : 0 ≤ truncRat q := by
  rw [truncRat_eq, if_neg (not_lt.mpr h)]
  exact Int.floor_nonneg.mpr h

theorem truncRat_le_of_le {q : ℚ} {n : ℤ} (h0 : 0 ≤ q) (h : q ≤ (n : ℚ)) :
    truncRat q ≤ n := by
  rw [truncRat_eq, if_neg (not_lt.mpr h0)]
  exact_mod_cast (Int.floor_le q).trans h

theorem truncRat_nonpos {q : ℚ} (h : q < 0) : truncRat q ≤ 0 := by
  rw [truncRat_eq, if_pos h]
  exact Int.ceil_le.mpr (by exact_mod_cast h.le)

theorem le_truncRat_of_le {q : ℚ} {n : ℤ} (hq : q < 0) (h : (n : ℚ) ≤ q) :
    n ≤ truncRat q := by
  rw [truncRat_eq, if_pos hq]
  exact_mod_cast h.trans (Int.le_ceil q)

theorem toInt16_eq_self {t : ℤ} (h1 : -32768 ≤ t) (h2 : t ≤ 32767) :
    toInt16 t = t := by
  unfold toInt16
  omega

theorem clampSample_mem (s : ℚ) : -1 ≤ clampSample s ∧ clampSample s ≤ 1 := by
  unfold clampSample
  exact ⟨le_max_left _ _, max_le (by norm_num) (min_le_left _ _)⟩

theorem scaleSample_bounds {c : ℚ} (h1 : -1 ≤ c) (h2 : c ≤ 1) :
    -32768 ≤ scaleSample c ∧ scaleSample c ≤ 32767 := by
  unfold scaleSample
  split
  · constructor <;> nlinarith
  · constructor <;> nlinarith

theorem truncRat_scale_mem {c : ℚ} (h1 : -1 ≤ c) (h2 : c ≤ 1) :
    -32768 ≤ truncRat (scaleSample c) ∧ truncRat (scaleSample c) ≤ 32767 := by
  obtain ⟨hb1, hb2⟩ := scaleSample_bounds h1 h2
  rcases lt_or_le (scaleSample c) 0 with h | h
  · refine ⟨le_truncRat_of_le h (by exact_mod_cast hb1), ?_⟩
    exact (truncRat_nonpos h).trans (by norm_num)
  · refine ⟨le_trans (by norm_num) (truncRat_nonneg h), ?_⟩
    exact truncRat_le_of_le h (by exact_mod_cast hb2)

theorem encodeSample_eq_trunc (s : ℚ) :
    encodeSample s = truncRat (scaleSample (clampSample s)) := by
  obtain ⟨h1, h2⟩ := clampSample_mem s
  obtain ⟨hl, hr⟩ := truncRat_scale_mem h1 h2
  unfold encodeSample
  exact toInt16_eq_self hl hr

theorem clampSample_eq (s : ℚ) : clampSample s = min 1 (max (-1) s) := by
  unfold clampSample
  rw [max_min_distrib_left]
  norm_num

/-- C1: for every float sample captured by the client encoder, the emitted
16-bit value equals the result of clamping the sample to [-1,1], scaling
the clamped value by 32768 when negative and by 32767 when non-negative,
and truncating the product toward zero — the `Int16Array` wrap-around
never fires, so storing truly truncates (it does not round to nearest). -/
theorem encodeSample_matches_claim (s : ℚ) :
    encodeSample s = claimEncodeSample s := by
  rw [encodeSample_eq_trunc]
  unfold claimEncodeSample scaleSample
  rw [← clampSample_eq]
  by_cases h : clampSample s < 0
  · rw [if_pos h, if_pos h]
  · rw [if_neg h, if_neg h]

/-- The interleaving loop shared by both capture paths: for each frame
index `i` the loop stores `encode(L[i])` then `encode(R[i])`.  In
JavaScript an out-of-range read of `R` yields `undefined`, which the
clamp/scale chain turns into `NaN` and the `Int16Array` store into `0`;
`List.headD _ 0` reproduces that, since `encodeSample 0 = 0`. -/
def interleaveEncode : List ℚ → List ℚ → List ℤ
  | [], _ => []
  | l :: ls, rs => encodeSample l :: encodeSample (rs.headD 0) :: interleaveEncode ls rs.tail

/-- From `audio-processor.js`: `PCMProcessor.process` on its per-channel
input blocks.  `inputs[0]` missing or having no channels makes the
processor return without posting (`none`); otherwise
`inputR = input.length > 1 ? input[1] : inputL` and the interleaved
`Int16Array` is posted to the main thread. -/
def workletProcess (inputs : List (List ℚ)) : Option (List ℤ) :=
  match inputs with
  | [] => none
  | inputL :: rest => some (interleaveEncode inputL (rest.headD inputL))

/-- The same interleaving loop as written in `useAudioStream.ts`, where
the two channels are walked in lock-step (the code has already checked
that the lengths agree). -/
def interleaveEncodePairs : List (ℚ × ℚ) → List ℤ
  | [] => []
  | p :: ps => encodeSample p.1 :: encodeSample p.2 :: interleaveEncodePairs ps

/-- From `useAudioStream.ts`: the `onaudioprocess` handler.  Nothing is
sent unless the socket is open; `inputR` falls back to `inputL` when the
buffer is mono (`numberOfChannels <= 1`, modelled as `none`); a length
mismatch makes the handler return without sending. -/
def onAudioProcess (socketOpen : Bool) (inputL : List ℚ) (inputR? : Option (List ℚ)) :
    Option (List ℤ) :=
  if socketOpen then
    let inputR := inputR?.getD inputL
    if inputL.length = inputR.length then some (interleaveEncodePairs (inputL.zip inputR))
    else none
  else none

/-- Modelled from the spec: the server-side `SampleCodec.decode` of one
16-bit sample is not under `src/`; the spec fixes it as
`sample / 32768.0` for negative and `sample / 32767.0` for non-negative
values. -/
def decodeSample (v : ℤ) : ℚ :=
  if v < 0 then (v : ℚ) / 32768 else (v : ℚ) / 32767

/-- De-interleaving of a sample sequence into the even-indexed (L) and
odd-indexed (R) subsequences. -/
def deinterleave : List ℤ → List ℤ × List ℤ
  | [] => ([], [])
  | [x] => ([x], [])
  | x :: y :: rest =>
    (x :: (deinterleave rest).1, y :: (deinterleave rest).2)

/-- Modelled from the spec: `SampleCodec.decode` on a whole frame (server
side, not under `src/`): parse the buffer as 16-bit signed integers,
reject it unless its length is a positive even sample count, and
de-interleave into two per-channel sequences of normalized floats. -/
def decodeFrame (pcm : List ℤ) : Option (List ℚ × List ℚ) :=
  if pcm.length ≠ 0 ∧ pcm.length % 2 = 0 then
    some ((deinterleave pcm).1.map decodeSample, (deinterleave pcm).2.map decodeSample)
  else none

theorem interleaveEncode_length (L : List ℚ) :
    ∀ R, (interleaveEncode L R).length = 2 * L.length := by
  induction L with
  | nil => intro R; rfl
  | cons l ls ih =>
    intro R
    simp only [interleaveEncode, List.length_cons, ih]
    omega

theorem interleaveEncode_get_even (L : List ℚ) :
    ∀ R i, i < L.length →
      (interleaveEncode L R).get? (2 * i) = some (encodeSample (L.getD i 0)) := by
  induction L with
  | nil => intro R i h; exact absurd h (by simp)
  | cons l ls ih =>
    intro R i h
    match i with
    | 0 => rfl
    | Nat.succ j =>
      rw [Nat.mul_succ]
      show (interleaveEncode (l :: ls) R).get? (2 * j + 1 + 1) = _
      rw [interleaveEncode, List.get?_cons_succ, List.get?_cons_succ]
      exact ih R.tail j (by simpa using h)

theorem getD_tail (R : List ℚ) (j : ℕ) : R.tail.getD j 0 = R.getD (j + 1) 0 := by
  cases R with
  | nil => rfl
  | cons r rt => rfl

theorem interleaveEncode_get_odd (L : List ℚ) :
    ∀ R i, i < L.length →
      (interleaveEncode L R).get? (2 * i + 1) = some (encodeSample (R.getD i 0)) := by
  induction L with
  | nil => intro R i h; exact absurd h (by simp)
  | cons l ls ih =>
    intro R i h
    match i with
    | 0 =>
      show some (encodeSample (R.headD 0)) = some (encodeSample (R.getD 0 0))
      cases R with
      | nil => rfl
      | cons r rt => rfl
    | Nat.succ j =>
      rw [Nat.mul_succ]
      show (interleaveEncode (l :: ls) R).get? (2 * j + 1 + 1 + 1) = _
      rw [interleaveEncode, List.get?_cons_succ, List.get?_cons_succ]
      rw [ih R.tail j (by simpa using h), getD_tail]

theorem interleaveEncodePairs_zip (L : List ℚ) :
    ∀ R, R.length = L.length →
      interleaveEncodePairs (L.zip R) = interleaveEncode L R := by
  induction L with
  | nil => intro R h; simp [interleaveEncodePairs, interleaveEncode]
  | cons l ls ih =>
    intro R h
    match R with
    | [] => exact absurd h (by simp)
    | r :: rt =>
      show encodeSample l :: encodeSample r :: interleaveEncodePairs (ls.zip rt) = _
      rw [interleaveEncode]
      show _ = encodeSample l :: encodeSample r :: interleaveEncode ls rt
      rw [ih rt (by simpa using h)]

theorem roundtrip_sample {v : ℤ} (h1 : -32768 < v) (h2 : v ≤ 32767) :
    encodeSample (decodeSample v) = v := by
  rw [encodeSample_eq_trunc]
  unfold decodeSample
  rcases lt_or_le v 0 with hv | hv
  · rw [if_pos hv]
    have hvq : (v : ℚ) < 0 := by exact_mod_cast hv
    have hd0 : (v : ℚ) / 32768 < 0 := div_neg_of_neg_of_pos hvq (by norm_num)
    have hd1 : -1 ≤ (v : ℚ) / 32768 := by
      rw [le_div_iff₀ (by norm_num)]
      have : (-32768 : ℚ) ≤ (v : ℚ) := by exact_mod_cast h1.le
      linarith
    have hclamp : clampSample ((v : ℚ) / 32768) = (v : ℚ) / 32768 := by
      unfold clampSample
      rw [min_eq_right (by linarith : (v : ℚ) / 32768 ≤ 1), max_eq_right hd1]
    rw [hclamp]
    unfold scaleSample
    rw [if_pos hd0, div_mul_cancel₀ _ (by norm_num : (32768 : ℚ) ≠ 0)]
    exact truncRat_intCast v
  · rw [if_neg (not_lt.mpr hv)]
    have hvq : (0 : ℚ) ≤ (v : ℚ) := by exact_mod_cast hv
    have hd0 : (0 : ℚ) ≤ (v : ℚ) / 32767 := div_nonneg hvq (by norm_num)
    have hd1 : (v : ℚ) / 32767 ≤ 1 := by
      rw [div_le_one (by norm_num)]
      exact_mod_cast h2
    have hclamp : clampSample ((v : ℚ) / 32767) = (v : ℚ) / 32767 := by
      unfold clampSample
      rw [min_eq_right hd1, max_eq_right (by linarith)]
    rw [hclamp]
    unfold scaleSample
    rw [if_neg (not_lt.mpr hd0), div_mul_cancel₀ _ (by norm_num : (32767 : ℚ) ≠ 0)]
    exact truncRat_intCast v

theorem deinterleave_roundtrip :
    ∀ pcm : List ℤ, pcm.length % 2 = 0 →
      (∀ v ∈ pcm, -32768 < v ∧ v ≤ 32767) →
      interleaveEncode ((deinterleave pcm).1.map decodeSample)
        ((deinterleave pcm).2.map decodeSample) = pcm := by
  intro pcm
  induction pcm using deinterleave.induct with
  | case1 => intro _ _; rfl
  | case2 x => intro h _; simp at h
  | case3 x y rest ih =>
    intro hlen hmem
    have hx := hmem x (by simp)
    have hy := hmem y (by simp)
    show encodeSample (decodeSample x) :: encodeSample (decodeSample y) ::
        interleaveEncode ((deinterleave rest).1.map decodeSample)
          ((deinterleave rest).2.map decodeSample) = x :: y :: rest
    rw [roundtrip_sample hx.1 hx.2, roundtrip_sample hy.1 hy.2,
      ih (by simp at hlen; omega) (fun v hv => hmem v (by simp [hv]))]

/-- C2: for every valid PCM frame (nonempty, even sample count, samples in
the 16-bit range and not at the extreme negative boundary -32768),
decoding the frame with the spec-modelled asymmetric mapping and
re-encoding each channel with the client encoder reproduces the frame
exactly. -/
theorem encode_decode_roundtrip (pcm : List ℤ) (hne : pcm ≠ [])
    (heven : pcm.length % 2 = 0)
    (hmem : ∀ v ∈ pcm, -32768 < v ∧ v ≤ 32767) :
    ∃ L R, decodeFrame pcm = some (L, R) ∧ interleaveEncode L R = pcm := by
  refine ⟨_, _, ?_, deinterleave_roundtrip pcm heven hmem⟩
  unfold decodeFrame
  rw [if_pos ⟨fun h => hne (List.length_eq_zero.mp h), heven⟩]

/-- C2 witness: a concrete valid frame round-trips. -/
theorem encode_decode_roundtrip_witness :
    ∃ L R, decodeFrame [1, -1, 2, -2] = some (L, R) ∧
      interleaveEncode L R = [1, -1, 2, -2] :=
  encode_decode_roundtrip [1, -1, 2, -2] (by decide) (by decide) (by decide)

/-- C3: for a captured block of N frames (per-channel blocks of equal
length N), both client capture paths emit exactly the interleaved buffer
of 2 * N samples, L at even indices and R at odd indices; the sample
count is always even, and the emitted buffer is nonempty whenever the
block is. -/
theorem emitted_buffer_shape (L R : List ℚ) (hlen : R.length = L.length) :
    workletProcess [L, R] = some (interleaveEncode L R) ∧
    onAudioProcess true L (some R) = some (interleaveEncode L R) ∧
    (interleaveEncode L R).length = 2 * L.length ∧
    Even (interleaveEncode L R).length ∧
    (L ≠ [] → interleaveEncode L R ≠ []) ∧
    ∀ i, i < L.length →
      (interleaveEncode L R).get? (2 * i) = some (encodeSample (L.getD i 0)) ∧
      (interleaveEncode L R).get? (2 * i + 1) = some (encodeSample (R.getD i 0)) := by
  refine ⟨rfl, ?_, interleaveEncode_length L R, ?_, ?_, ?_⟩
  · unfold onAudioProcess
    rw [if_pos rfl]
    simp only [Option.getD_some]
    rw [if_pos hlen.symm, interleaveEncodePairs_zip L R hlen]
  · exact ⟨L.length, by rw [interleaveEncode_length L R]; omega⟩
  · intro hne
    have : 0 < (interleaveEncode L R).length := by
      rw [interleaveEncode_length L R]
      have := List.length_pos.mpr hne
      omega
    exact List.ne_nil_of_length_pos this
  · intro i hi
    exact ⟨interleaveEncode_get_even L R i hi, interleaveEncode_get_odd L R i hi⟩

/-- C3 witness: a concrete two-frame block has the claimed shape. -/
theorem emitted_buffer_shape_witness :
    workletProcess [[0, 1], [1, 0]] = some (interleaveEncode [0, 1] [1, 0]) ∧
    (interleaveEncode [0, 1] [1, 0]).length = 2 * 2 ∧
    interleaveEncode [0, 1] [1, 0] ≠ [] :=
  ⟨(emitted_buffer_shape [0, 1] [1, 0] rfl).1,
    (emitted_buffer_shape [0, 1] [1, 0] rfl).2.2.1,
    (emitted_buffer_shape [0, 1] [1, 0] rfl).2.2.2.2.1 (by simp)⟩

/-- C4: when the capture source provides a single channel, both capture
paths duplicate it: the emitted buffer is the interleaving of the block
with itself, and for every frame index the L slot and the R slot hold the
same encoded sample. -/
theorem mono_duplicated_to_stereo (L : List ℚ) :
    workletProcess [L] = some (interleaveEncode L L) ∧
    onAudioProcess true L none = some (interleaveEncode L L) ∧
    ∀ i, i < L.length →
      (interleaveEncode L L).get? (2 * i) = (interleaveEncode L L).get? (2 * i + 1) ∧
      (interleaveEncode L L).get? (2 * i) = some (encodeSample (L.getD i 0)) := by
  refine ⟨rfl, ?_, ?_⟩
  · simp [onAudioProcess, interleaveEncodePairs_zip L L rfl]
  · intro i hi
    rw [interleaveEncode_get_even L L i hi, interleaveEncode_get_odd L L i hi]
    exact ⟨rfl, rfl⟩

/-- C4 witness: a concrete mono block is duplicated to both slots. -/
theorem mono_duplicated_to_stereo_witness :
    workletProcess [[0]] = some (interleaveEncode [0] [0]) ∧
    (interleaveEncode [0] [0]).get? 0 = (interleaveEncode [0] [0]).get? 1 :=
  ⟨(mono_duplicated_to_stereo [0]).1,
    ((mono_duplicated_to_stereo [0]).2.2 0 (by decide)).1⟩

/-- C8: on equal-length per-channel input blocks, the inline
`ScriptProcessorNode` handler of `useAudioStream.ts` (with the socket
open) and the `AudioWorklet` processor of `audio-processor.js` emit
identical interleaved Int16 buffers. -/
theorem capture_paths_equivalent (L R : List ℚ) (hlen : R.length = L.length) :
    onAudioProcess true L (some R) = workletProcess [L, R] := by
  unfold onAudioProcess
  rw [if_pos rfl]
  simp only [Option.getD_some]
  rw [if_pos hlen.symm, interleaveEncodePairs_zip L R hlen]
  rfl

/-- C8 witness: the two paths agree on a concrete block. -/
theorem capture_paths_equivalent_witness :
    onAudioProcess true [1] (some [0]) = workletProcess [[1], [0]] :=
  capture_paths_equivalent [1] [0] rfl

/-- A control or binary message sent by the client on the WebSocket, with
the exact fields the JSON payloads of `useAudioStream.ts` carry. -/
inductive OutMsg where
  | init (sample_rate : ℕ) (channels : ℕ)
  | start_record (sample_rate : ℕ) (channels : ℕ)
  | stop_record
  | set_params (gain : ℚ) (filter_enabled : Bool) (cutoff_freq : ℚ) (integration_time : ℚ)
  | audio (pcm : List ℤ)
deriving DecidableEq

/-- The `action` string of a control message; binary audio frames carry
none. -/
def OutMsg.action : OutMsg → Option String
  | .init _ _ => some "init"
  | .start_record _ _ => some "start_record"
  | .stop_record => some "stop_record"
  | .set_params _ _ _ _ => some "set_params"
  | .audio _ => none

/-- An incoming message as `ws.onmessage` distinguishes it by its `type`
field: `meter` (with optional `spectrum` and `panning` fields), a
`recording_saved` notice, or anything else. -/
inductive ServerMsg where
  | meter (rms : ℚ) (spectrum : Option (List ℚ)) (panning : Option ℚ)
  | recording_saved (id : ℤ) (filename : String)
  | other
deriving DecidableEq

def ServerMsg.isRecordingSaved : ServerMsg → Bool
  | .recording_saved _ _ => true
  | _ => false

/-- The state of one `useAudioStream` hook instance together with its one
WebSocket object: the six React state cells, whether the socket has ever
fired `open` (a WebSocket opens at most once), whether it is currently
open, and the list of messages sent so far, oldest first. -/
structure HookState where
  isConnected : Bool
  isRecording : Bool
  rms : ℚ
  spectrum : List ℚ
  panning : ℚ
  lastRecording : Option (ℤ × String)
  socketOpen : Bool
  opened : Bool
  sent : List OutMsg
deriving DecidableEq

/-- The `useState` initial values of `useAudioStream`, with a fresh,
not-yet-open socket that has sent nothing. -/
def hookInit : HookState :=
  ⟨false, false, -100, [], 0, none, false, false, []⟩

/-- Transcription of `ws.onmessage`: a `meter` message always stores
`rms` and stores `spectrum` and `panning` only when the fields are
present (in JS an array is truthy even when empty, so presence of
`spectrum` suffices); a `recording_saved` message stores the `{id,
filename}` pair and clears `isRecording`; any other `type` changes
nothing. -/
def handleMessage (s : HookState) : ServerMsg → HookState
  | .meter r sp p =>
    { s with
      rms := r
      spectrum := match sp with | some v => v | none => s.spectrum
      panning := match p with | some v => v | none => s.panning }
  | .recording_saved i fn => { s with lastRecording := some (i, fn), isRecording := false }
  | .other => s

/-- The events that can reach one hook instance: the socket's `open` and
`close` events, an incoming server message, a PCM block arriving from the
capture node, and the user-invoked `startRecording`, `stopRecording` and
`setSettings` calls. -/
inductive Event where
  | wsOpen (sample_rate : ℕ) (channels : ℕ)
  | wsClose
  | serverMessage (m : ServerMsg)
  | audioFrame (pcm : List ℤ)
  | startRecording (sample_rate : ℕ) (channels : ℕ)
  | stopRecording
  | setSettings (gain : ℚ) (filter : Bool) (cutoff : ℚ) (integrationTime : ℚ)

def Event.isServerMessage : Event → Bool
  | .serverMessage _ => true
  | _ => false

def Event.isStartRecording : Event → Bool
  | .startRecording _ _ => true
  | _ => false

/-- One JavaScript event-loop turn of `useAudioStream.ts`.  JS handlers
run to completion, and per the WebSocket specification `readyState`
becomes OPEN as part of the very task that fires the `open` event, so no
send guarded by `readyState === OPEN` can run before `ws.onopen` has: the
`open` turn atomically marks the socket open and sends the `init`
message.  Every other sending turn transcribes its source handler,
including its `readyState === WebSocket.OPEN` guard. -/
def step (s : HookState) : Event → HookState
  | .wsOpen sr ch =>
    if s.opened then s
    else { s with
      opened := true
      socketOpen := true
      isConnected := true
      sent := s.sent ++ [OutMsg.init sr ch] }
  | .wsClose => { s with socketOpen := false, isConnected := false }
  | .serverMessage m => handleMessage s m
  | .audioFrame pcm =>
    if s.socketOpen then { s with sent := s.sent ++ [OutMsg.audio pcm] } else s
  | .startRecording sr ch =>
    if s.socketOpen then
      { s with sent := s.sent ++ [OutMsg.start_record sr ch], isRecording := true }
    else s
  | .stopRecording =>
    if s.socketOpen then { s with sent := s.sent ++ [OutMsg.stop_record] } else s
  | .setSettings g f c it =>
    if s.socketOpen then { s with sent := s.sent ++ [OutMsg.set_params g f c it] } else s

/-- The hook state after a sequence of events, starting from a fresh
mount. -/
def run (es : List Event) : HookState :=
  es.foldl step hookInit

/-- Invariant carried through every trace: before the `open` event
nothing has been sent and the socket is closed, and from the `open` event
on, the sent list starts with an `init` message. -/
def SentInv (s : HookState) : Prop :=
  (s.opened = false → s.sent = [] ∧ s.socketOpen = false) ∧
  (s.opened = true → ∃ sr ch rest, s.sent = OutMsg.init sr ch :: rest)

theorem sentInv_hookInit : SentInv hookInit :=
  ⟨fun _ => ⟨rfl, rfl⟩, fun h => by simp [hookInit] at h⟩

theorem sentInv_step (s : HookState) (e : Event) (hs : SentInv s) :
    SentInv (step s e) := by
  obtain ⟨h0, h1⟩ := hs
  cases e with
  | wsOpen sr ch =>
    simp only [step]
    by_cases ho : s.opened
    · rw [if_pos ho]; exact ⟨h0, h1⟩
    · rw [if_neg ho]
      refine ⟨fun h => by simp at h, fun _ => ⟨sr, ch, [], ?_⟩⟩
      have := (h0 (Bool.not_eq_true s.opened ▸ ho)).1
      simp [this]
  | wsClose =>
    exact ⟨fun h => ⟨(h0 h).1, rfl⟩, h1⟩
  | serverMessage m =>
    cases m with
    | meter r sp p => exact ⟨fun h => h0 h, h1⟩
    | recording_saved i fn => exact ⟨fun h => h0 h, h1⟩
    | other => exact ⟨h0, h1⟩
  | audioFrame pcm =>
    simp only [step]
    by_cases hso : s.socketOpen
    · rw [if_pos hso]
      have hop : s.opened = true := by
        by_contra hc
        exact absurd hso (by simp [(h0 (Bool.not_eq_true s.opened ▸ hc)).2])
      obtain ⟨sr, ch, rest, hr⟩ := h1 hop
      exact ⟨fun h => by simp [hop] at h, fun _ => ⟨sr, ch, rest ++ [OutMsg.audio pcm], by simp [hr]⟩⟩
    · rw [if_neg hso]; exact ⟨h0, h1⟩
  | startRecording sr0 ch0 =>
    simp only [step]
    by_cases hso : s.socketOpen
    · rw [if_pos hso]
      have hop : s.opened = true := by
        by_contra hc
        exact absurd hso (by simp [(h0 (Bool.not_eq_true s.opened ▸ hc)).2])
      obtain ⟨sr, ch, rest, hr⟩ := h1 hop
      exact ⟨fun h => by simp [hop] at h,
        fun _ => ⟨sr, ch, rest ++ [OutMsg.start_record sr0 ch0], by simp [hr]⟩⟩
    · rw [if_neg hso]; exact ⟨h0, h1⟩
  | stopRecording =>
    simp only [step]
    by_cases hso : s.socketOpen
    · rw [if_pos hso]
      have hop : s.opened = true := by
        by_contra hc
        exact absurd hso (by simp [(h0 (Bool.not_eq_true s.opened ▸ hc)).2])
      obtain ⟨sr, ch, rest, hr⟩ := h1 hop
      exact ⟨fun h => by simp [hop] at h,
        fun _ => ⟨sr, ch, rest ++ [OutMsg.stop_record], by simp [hr]⟩⟩
    · rw [if_neg hso]; exact ⟨h0, h1⟩
  | setSettings g f c it =>
    simp only [step]
    by_cases hso : s.socketOpen
    · rw [if_pos hso]
      have hop : s.opened = true := by
        by_contra hc
        exact absurd hso (by simp [(h0 (Bool.not_eq_true s.opened ▸ hc)).2])
      obtain ⟨sr, ch, rest, hr⟩ := h1 hop
      exact ⟨fun h => by simp [hop] at h,
        fun _ => ⟨sr, ch, rest ++ [OutMsg.set_params g f c it], by simp [hr]⟩⟩
    · rw [if_neg hso]; exact ⟨h0, h1⟩

theorem sentInv_foldl (es : List Event) :
    ∀ s : HookState, SentInv s → SentInv (es.foldl step s) := by
  induction es with
  | nil => intro s hs; exact hs
  | cons e es ih => intro s hs; exact ih (step s e) (sentInv_step s e hs)

/-- C5: in every trace of one connection, if anything at all has been
sent, then the very first message sent is the `init` control message
(action string `"init"`, carrying the `sample_rate` and `channels`
fields) — it precedes every audio frame and every other control
message. -/
theorem init_sent_first (es : List Event) (hne : (run es).sent ≠ []) :
    ∃ sr ch, ((run es).sent).head? = some (OutMsg.init sr ch) ∧
      (OutMsg.init sr ch).action = some "init" := by
  obtain ⟨h0, h1⟩ := sentInv_foldl es hookInit sentInv_hookInit
  by_cases hop : (run es).opened
  · obtain ⟨sr, ch, rest, hr⟩ := h1 hop
    exact ⟨sr, ch, by rw [show (run es).sent = _ from hr]; rfl, rfl⟩
  · exact absurd (h0 (Bool.not_eq_true _ ▸ hop)).1 hne

/-- C5 witness: after the `open` event the first sent message is `init`. -/
theorem init_sent_first_witness :
    ∃ sr ch, ((run [Event.wsOpen 44100 2]).sent).head? = some (OutMsg.init sr ch) ∧
      (OutMsg.init sr ch).action = some "init" :=
  init_sent_first [Event.wsOpen 44100 2] (by decide)

/-- C6: a `setSettings(gain, filter, cutoff, integrationTime)` call with
the socket open appends exactly one `set_params` control message binding
exactly the four fields to the given arguments and changes nothing else;
with the socket not open it sends nothing and leaves the state
untouched. -/
theorem setSettings_sends_set_params (s : HookState) (g : ℚ) (f : Bool) (c it : ℚ) :
    (s.socketOpen = true →
      step s (Event.setSettings g f c it) =
        { s with sent := s.sent ++ [OutMsg.set_params g f c it] } ∧
      (OutMsg.set_params g f c it).action = some "set_params") ∧
    (s.socketOpen = false → step s (Event.setSettings g f c it) = s) := by
  constructor
  · intro h
    simp only [step]
    rw [if_pos h]
    exact ⟨rfl, rfl⟩
  · intro h
    simp only [step]
    rw [if_neg (by simp [h])]

/-- C6 witness: concrete open and closed states. -/
theorem setSettings_sends_set_params_witness :
    step { hookInit with socketOpen := true } (Event.setSettings 6 true 1000 (1/2)) =
      { hookInit with socketOpen := true, sent := [OutMsg.set_params 6 true 1000 (1/2)] } ∧
    step hookInit (Event.setSettings 6 true 1000 (1/2)) = hookInit :=
  ⟨((setSettings_sends_set_params { hookInit with socketOpen := true } 6 true 1000 (1/2)).1 rfl).1,
    (setSettings_sends_set_params hookInit 6 true 1000 (1/2)).2 rfl⟩

/-- C7: an incoming `recording_saved` message sets `lastRecording` to its
`{id, filename}` pair and clears `isRecording`, and no incoming message
of any other type changes `lastRecording`. -/
theorem recording_saved_updates_lastRecording (s : HookState) (i : ℤ) (fn : String)
    (m : ServerMsg) (hm : m.isRecordingSaved = false) :
    (handleMessage s (ServerMsg.recording_saved i fn)).lastRecording = some (i, fn) ∧
    (handleMessage s (ServerMsg.recording_saved i fn)).isRecording = false ∧
    (handleMessage s m).lastRecording = s.lastRecording := by
  refine ⟨rfl, rfl, ?_⟩
  cases m with
  | meter r sp p => rfl
  | recording_saved i fn => simp [ServerMsg.isRecordingSaved] at hm
  | other => rfl

/-- C7 witness: a concrete `recording_saved` message and a concrete
`meter` message. -/
theorem recording_saved_updates_lastRecording_witness :
    (handleMessage hookInit (ServerMsg.recording_saved 7 "rec_7.wav")).lastRecording =
      some (7, "rec_7.wav") ∧
    (handleMessage hookInit (ServerMsg.recording_saved 7 "rec_7.wav")).isRecording = false ∧
    (handleMessage hookInit (ServerMsg.meter (-20) none none)).lastRecording =
      hookInit.lastRecording :=
  recording_saved_updates_lastRecording hookInit 7 "rec_7.wav"
    (ServerMsg.meter (-20) none none) rfl

/-- C9 counterexample: a trace containing no server message at all — the
socket opens and the user starts a recording — reaches a state with
`isRecording = true`, so "before any message has been received the hook
reports `isRecording = false`" is false as stated: `startRecording` flips
`isRecording` locally, without any server round trip. -/
theorem isRecording_true_before_any_server_message :
    ([Event.wsOpen 44100 2, Event.startRecording 44100 2].all
        (fun e => !e.isServerMessage)) = true ∧
    (run [Event.wsOpen 44100 2, Event.startRecording 44100 2]).isRecording = true := by
  exact ⟨rfl, rfl⟩

/-- C9 (amended): before any message has been received from the server
and before the user has invoked `startRecording`, the hook reports the
silent floor values: `rms = -100`, `panning = 0`, `spectrum = []`,
`isRecording = false` and `lastRecording = none`. -/
theorem silent_floor_before_message_or_record (es : List Event)
    (h : (es.all fun e => !(e.isServerMessage || e.isStartRecording)) = true) :
    (run es).rms = -100 ∧ (run es).panning = 0 ∧ (run es).spectrum = [] ∧
      (run es).isRecording = false ∧ (run es).lastRecording = none := by
  have key : ∀ (l : List Event) (s : HookState),
      (l.all fun e => !(e.isServerMessage || e.isStartRecording)) = true →
      s.rms = -100 ∧ s.panning = 0 ∧ s.spectrum = [] ∧
        s.isRecording = false ∧ s.lastRecording = none →
      (l.foldl step s).rms = -100 ∧ (l.foldl step s).panning = 0 ∧
        (l.foldl step s).spectrum = [] ∧ (l.foldl step s).isRecording = false ∧
        (l.foldl step s).lastRecording = none := by
    intro l
    induction l with
    | nil => intro s _ hs; exact hs
    | cons e l ih =>
      intro s hl hs
      rw [List.all_cons, Bool.and_eq_true] at hl
      refine ih (step s e) hl.2 ?_
      obtain ⟨hs1, hs2, hs3, hs4, hs5⟩ := hs
      cases e with
      | wsOpen sr ch =>
        simp only [step]
        by_cases ho : s.opened
        · rw [if_pos ho]; exact ⟨hs1, hs2, hs3, hs4, hs5⟩
        · rw [if_neg ho]; exact ⟨hs1, hs2, hs3, hs4, hs5⟩
      | wsClose => exact ⟨hs1, hs2, hs3, hs4, hs5⟩
      | serverMessage m => simp [Event.isServerMessage] at hl
      | audioFrame pcm =>
        simp only [step]
        by_cases hso : s.socketOpen
        · rw [if_pos hso]; exact ⟨hs1, hs2, hs3, hs4, hs5⟩
        · rw [if_neg hso]; exact ⟨hs1, hs2, hs3, hs4, hs5⟩
      | startRecording sr ch => simp [Event.isStartRecording] at hl
      | stopRecording =>
        simp only [step]
        by_cases hso : s.socketOpen
        · rw [if_pos hso]; exact ⟨hs1, hs2, hs3, hs4, hs5⟩
        · rw [if_neg hso]; exact ⟨hs1, hs2, hs3, hs4, hs5⟩
      | setSettings g f c it =>
        simp only [step]
        by_cases hso : s.socketOpen
        · rw [if_pos hso]; exact ⟨hs1, hs2, hs3, hs4, hs5⟩
        · rw [if_neg hso]; exact ⟨hs1, hs2, hs3, hs4, hs5⟩
  exact key es hookInit h ⟨rfl, rfl, rfl, rfl, rfl⟩

/-- C9 (amended) witness: a concrete trace with neither server messages
nor a `startRecording` call keeps the floor values. -/
theorem silent_floor_before_message_or_record_witness :
    (run [Event.wsOpen 44100 2, Event.audioFrame [0, 0], Event.wsClose]).rms = -100 ∧
    (run [Event.wsOpen 44100 2, Event.audioFrame [0, 0], Event.wsClose]).panning = 0 ∧
    (run [Event.wsOpen 44100 2, Event.audioFrame [0, 0], Event.wsClose]).spectrum = [] ∧
    (run [Event.wsOpen 44100 2, Event.audioFrame [0, 0], Event.wsClose]).isRecording = false ∧
    (run [Event.wsOpen 44100 2, Event.audioFrame [0, 0], Event.wsClose]).lastRecording = none :=
  silent_floor_before_message_or_record
    [Event.wsOpen 44100 2, Event.audioFrame [0, 0], Event.wsClose] rfl

/-- From `VuMeter.tsx`: `normalized = (dbLevel + 60) / 60` followed by
`normalized = Math.max(0, Math.min(1, normalized))`. -/
def vuNormalized (dbLevel : ℚ) : ℚ :=
  max 0 (min 1 ((dbLevel + 60) / 60))

/-- From `VuMeter.tsx`: the filled rectangle is drawn with width
`width * normalized`. -/
def vuBarWidth (width dbLevel : ℚ) : ℚ :=
  width * vuNormalized dbLevel

/-- C10: for every finite `dbLevel`, the drawn bar-width fraction equals
`(dbLevel + 60) / 60` clamped to `[0, 1]`, so for every canvas width
`w ≥ 0` — including levels below -60 dB or above 0 dB — the filled
rectangle's width is non-negative and never exceeds `w`. -/
theorem vuMeter_bar_width_safe (dbLevel w : ℚ) (hw : 0 ≤ w) :
    vuNormalized dbLevel = min 1 (max 0 ((dbLevel + 60) / 60)) ∧
    0 ≤ vuBarWidth w dbLevel ∧ vuBarWidth w dbLevel ≤ w := by
  have h0 : 0 ≤ vuNormalized dbLevel := le_max_left _ _
  have h1 : vuNormalized dbLevel ≤ 1 := by
    unfold vuNormalized
    exact max_le (by norm_num) (min_le_left _ _)
  refine ⟨?_, mul_nonneg hw h0, ?_⟩
  · unfold vuNormalized
    rw [max_min_distrib_left]
    norm_num
  · calc vuBarWidth w dbLevel ≤ w * 1 := mul_le_mul_of_nonneg_left h1 hw
    _ = w := mul_one w

/-- C10 witness: the canvas of width 600 at -75 dB (below the -60 dB
floor). -/
theorem vuMeter_bar_width_safe_witness :
    0 ≤ vuBarWidth 600 (-75) ∧ vuBarWidth 600 (-75) ≤ 600 :=
  ⟨(vuMeter_bar_width_safe (-75) 600 (by norm_num)).2.1,
    (vuMeter_bar_width_safe (-75) 600 (by norm_num)).2.2⟩

end Pycoustics
